import Mathlib

/-!
Verification development for the Trepan tree-induction engine
(file src/generalizedtrees/explainers/trepan.py of the repository).

The embedding translates the Python source into Lean definitions.
Feature values are rationals, labels are naturals.  Parts of the
repository that are referenced by trepan.py but whose source files are
not available (the constraints module, the tree module, the scores
module, the splitting module) are modelled from the specification
document, as marked in the corresponding doc comments.  External
libraries (numpy, scipy, the random generator, the caller-supplied
oracle) are abstracted as explicit function parameters.
-/

namespace TrepanModel

/-- Modelled from the spec: FeatureSpec classifies each input dimension
as continuous or discrete (the core module is absent from the sources;
only continuous-vs-discrete affects behavior). -/
inductive FeatureSpec where
  | continuous
  | discrete
deriving DecidableEq

/-- A feature vector: one rational per dimension. -/
def Vec := List ℚ
deriving DecidableEq

/-- Modelled from the spec: a primitive constraint is a comparison of one
feature against a value (GreaterThan, LessOrEqual, Equal, NotEqual); the
constraints module is absent from the sources. -/
inductive PrimC where
  | gtc (j : ℕ) (v : ℚ)
  | lec (j : ℕ) (v : ℚ)
  | eqc (j : ℕ) (v : ℚ)
  | nec (j : ℕ) (v : ℚ)
deriving DecidableEq

/-- Modelled from the spec: test of a primitive constraint on a vector.
Out-of-range feature indices read a default of zero. -/
def PrimC.test : PrimC → Vec → Bool
  | .gtc j v, x => decide (v < x.getD j 0)
  | .lec j v, x => decide (x.getD j 0 ≤ v)
  | .eqc j v, x => decide (x.getD j 0 = v)
  | .nec j v, x => decide (x.getD j 0 ≠ v)

/-- Modelled from the spec: a constraint is a primitive comparison or an
m-of-n composite over primitive tests. -/
inductive Constraint where
  | prim (p : PrimC)
  | mofn (m : ℕ) (ps : List PrimC)
deriving DecidableEq

/-- Modelled from the spec: a constraint tests true on a vector when the
comparison holds, and an m-of-n composite tests true when at least m of
its primitive tests hold. -/
def Constraint.test : Constraint → Vec → Bool
  | .prim p, x => p.test x
  | .mofn m ps, x => decide (m ≤ ps.countP (fun p => p.test x))

/-- The numpy fancy-indexing operation targets[idx]: read the targets at
a list of row indices (absent rows read zero). -/
def selectIdx (targets : List ℕ) (idx : List ℕ) : List ℕ :=
  idx.map (fun i => targets.getD i 0)

/-- First-occurrence list of distinct values, as iteration over a python
Counter enumerates keys in insertion order. -/
def distincts {α : Type} [DecidableEq α] (l : List α) : List α :=
  l.foldl (fun acc v => if v ∈ acc then acc else acc ++ [v]) []

/-- The statistics.mode call of trepan.py lines 337 and 382: the first
encountered most common value (the default value of an empty list is
zero; the python call would fail there, no run in this file reaches
that case). -/
def modeVal (l : List ℕ) : ℕ :=
  (distincts l).foldl (fun best v => if l.count best < l.count v then v else best) (l.headD 0)

/-- The np.mean(labels == prediction) pattern of trepan.py lines 340 and
385: fraction of the labels equal to the prediction. -/
def agreeRate (l : List ℕ) (p : ℕ) : ℚ :=
  ((l.countP (fun y => decide (y = p)) : ℕ) : ℚ) / ((l.length : ℕ) : ℚ)

/-- TrepanNode (trepan.py lines 42 to 57) restricted to the fields the
induction loop reads and writes.  The depth field is set by the tree
module (absent from the sources); modelled from the spec, the root has
depth zero and a child has its parent depth plus one.  The generator is
represented by the index set it was fit from (the namedtuple of line
139 carries the sampling closure and this index set; the closure is
abstracted away). -/
structure Node where
  score : ℚ
  localConstraint : Option Constraint
  constraints : List Constraint
  trainingIdx : List ℕ
  generatorIdx : List ℕ
  genData : List Vec
  genTargets : List ℕ
  prediction : ℕ
  fidelity : ℚ
  coverage : ℚ
  depth : ℕ
deriving DecidableEq

/-- Parameter bundle for one fit call: the training data, the targets
(the oracle applied once to the training data, trepan.py line 316), and
the abstracted external collaborators: splitter is the construct_split
call of line 354 (its candidate enumeration lives in the splitting
module, absent from the sources), sample abstracts draw_sample for a
positive requested count (generator closures and the oracle are
external), sameDist abstracts the scipy-based distribution test of
line 370, and the two configured limits. -/
structure FitEnv where
  data : List Vec
  targets : List ℕ
  splitter : List Vec → List ℕ → List Constraint
  sample : List Constraint → ℕ → List ℕ → List Vec × List ℕ
  sameDist : List ℕ → List ℕ → Bool
  minSample : ℤ
  maxTreeSize : ℕ

/-- Combined data matrix passed to construct_split at trepan.py line
355: real rows routed to the node followed by its generated rows. -/
def nodeData (env : FitEnv) (node : Node) : List Vec :=
  (node.trainingIdx.map fun i => env.data.getD i []) ++ node.genData

/-- Combined target vector passed to construct_split at trepan.py line
356: real labels routed to the node followed by its generated labels. -/
def nodeTargets (env : FitEnv) (node : Node) : List ℕ :=
  selectIdx env.targets node.trainingIdx ++ node.genTargets

/-- Child-node construction, trepan.py lines 361 to 400: filter the
training indices by the constraint, decide generator reuse, top up
synthetic data when the minimum sample is not met (the guard n less
than one of line 414 yields empty data), then compute prediction,
fidelity, coverage and score exactly as written in the source.  Note
line 385 computes fidelity against the full target vector env.targets,
not against the targets routed to the child. -/
def mkChild (env : FitEnv) (node : Node) (c : Constraint) : Node :=
  let idx := node.trainingIdx.filter (fun i => c.test (env.data.getD i []))
  let genIdx := if env.sameDist idx node.generatorIdx then node.generatorIdx else idx
  let want : ℤ := env.minSample - idx.length
  let gd := if want < 1 then (([] : List Vec), ([] : List ℕ))
            else env.sample (node.constraints ++ [c]) want.toNat genIdx
  let pred := modeVal (selectIdx env.targets idx ++ gd.2)
  let fid := agreeRate (env.targets ++ gd.2) pred
  let nGen := node.genData.length
  let nAcc := node.genData.countP (fun r => c.test r)
  let cov := (((idx.length + nAcc : ℕ) : ℚ) / ((node.trainingIdx.length + nGen : ℕ) : ℚ))
               * node.coverage
  { score := -(cov * (1 - fid)),
    localConstraint := some c,
    constraints := node.constraints ++ [c],
    trainingIdx := idx,
    generatorIdx := genIdx,
    genData := gd.1,
    genTargets := gd.2,
    prediction := pred,
    fidelity := fid,
    coverage := cov,
    depth := node.depth + 1 }

/-- Root-node construction, trepan.py lines 322 to 345: all training
indices, a fresh generator over them, synthetic top-up to the minimum
sample, prediction and fidelity over the combined labels, coverage one,
score zero, empty constraint path, depth zero. -/
def rootNode (env : FitEnv) : Node :=
  let n := env.data.length
  let idx := List.range n
  let want : ℤ := env.minSample - n
  let gd := if want < 1 then (([] : List Vec), ([] : List ℕ))
            else env.sample [] want.toNat idx
  let pred := modeVal (env.targets ++ gd.2)
  { score := 0,
    localConstraint := none,
    constraints := [],
    trainingIdx := idx,
    generatorIdx := idx,
    genData := gd.1,
    genTargets := gd.2,
    prediction := pred,
    fidelity := agreeRate (env.targets ++ gd.2) pred,
    coverage := 1,
    depth := 0 }

/-- State of the induction loop: the tree node counter (the tree module
is absent from the sources; modelled from the spec, size is the total
node count, incremented once per appended child) and the frontier
priority queue. -/
structure FitState where
  size : ℕ
  heap : List Node
deriving DecidableEq

/-- The heappop call of trepan.py line 352: remove and return a node of
minimal score (heapq orders nodes through their less-than on scores;
among equal minimal scores the model takes the first listed). -/
def popMin : List Node → Option (Node × List Node)
  | [] => none
  | x :: xs =>
    let m := xs.foldl (fun acc nd => min acc nd.score) x.score
    let i := (x :: xs).findIdx (fun nd => nd.score = m)
    some ((x :: xs).getD i x, (x :: xs).eraseIdx i)

/-- Body of one expansion, trepan.py lines 354 to 404: construct the
split over the combined node data, then for each constraint append a
child (one node-counter increment each) and push it onto the frontier
unless all real labels routed to it already equal its prediction. -/
def expandNode (env : FitEnv) (node : Node) (st : FitState) : FitState :=
  (env.splitter (nodeData env node) (nodeTargets env node)).foldl
    (fun s c =>
      let child := mkChild env node c
      { size := s.size + 1,
        heap :=
          if (selectIdx env.targets child.trainingIdx).all
               (fun y => decide (y = child.prediction))
          then s.heap else s.heap ++ [child] })
    st

/-- Main induction loop, trepan.py line 350: while the frontier is
nonempty and the tree size is below the budget, pop a node and expand
it.  Fuel bounds the number of iterations of the model; the python loop
terminates, and applications pass enough fuel. -/
def fitLoop (env : FitEnv) : ℕ → FitState → FitState
  | 0, st => st
  | fuel + 1, st =>
    if st.size < env.maxTreeSize then
      match popMin st.heap with
      | none => st
      | some (node, rest) => fitLoop env fuel (expandNode env node ⟨st.size, rest⟩)
    else st

/-- Initial loop state, trepan.py lines 322 and 348: the planted tree
holds one node and the frontier holds the root, enqueued without any
purity check. -/
def initState (env : FitEnv) : FitState :=
  ⟨1, [rootNode env]⟩

/-- The fit entry point, trepan.py lines 301 to 406, after the one-time
setup: run the induction loop from the initial state. -/
def fit (env : FitEnv) (fuel : ℕ) : FitState :=
  fitLoop env fuel (initState env)

/-- Modelled from the spec: label entropy of a target vector, the
empirical Shannon entropy of the label distribution (the scores module
holding the entropy function is absent from the sources; the spec
speaks of label entropy). -/
noncomputable def entropy (l : List ℕ) : ℝ :=
  ((distincts l).map
    (fun v => Real.negMulLog ((l.count v : ℝ) / (l.length : ℝ)))).sum

/-- Target subvector of the rows satisfying a constraint, the indexing
targets[np.apply_along_axis(c.test, 1, data)] of trepan.py line 262. -/
def branchTargets (c : Constraint) (data : List Vec) (targets : List ℕ) : List ℕ :=
  ((data.zip targets).filter (fun p => c.test p.1)).map (fun p => p.2)

/-- The split_score method, trepan.py lines 257 to 263: entropy of the
full target vector minus the sum of the entropies of the target
subvectors selected by each constraint of the split. -/
noncomputable def splitScore (split : List Constraint) (data : List Vec) (targets : List ℕ) : ℝ :=
  entropy targets - (split.map (fun c => entropy (branchTargets c data targets))).sum

/-- Modelled from the spec: information gain with size weighting, the
parent label entropy minus the sum of child label entropies each
weighted by the fraction of instances reaching that branch.  This is
the spec-side definition the split_score method is compared against. -/
noncomputable def infoGain (split : List Constraint) (data : List Vec) (targets : List ℕ) : ℝ :=
  entropy targets - (split.map (fun c =>
    ((branchTargets c data targets).length : ℝ) / ((targets.length : ℝ))
      * entropy (branchTargets c data targets))).sum

/-- One step of the best-candidate scan of construct_split, trepan.py
lines 223 to 227: keep the new split exactly when its score strictly
exceeds the best score so far. -/
noncomputable def splitFold (data : List Vec) (targets : List ℕ)
    (best : ℝ × List Constraint) (split : List Constraint) : ℝ × List Constraint :=
  if best.1 < splitScore split data targets then (splitScore split data targets, split)
  else best

/-- The construct_split method, trepan.py lines 219 to 238, on the path
with m-of-n refinement disabled: starting from the empty split with
score zero, keep the first candidate whose score strictly exceeds the
best so far.  The candidate pool is a parameter because the candidate
enumeration (fayyad_thresholds and one_vs_all of the splitting module)
is absent from the sources. -/
noncomputable def constructSplit (splitCandidates : List (List Constraint))
    (data : List Vec) (targets : List ℕ) : List Constraint :=
  (splitCandidates.foldl (splitFold data targets) ((0 : ℝ), ([] : List Constraint))).2

/-- The pick_branch method of TrepanNode, trepan.py lines 82 to 92:
scan the children in order and return the index of the first whose
local constraint tests true on the vector; none models the raised
ValueError when no child matches. -/
def pickBranch (cs : List Constraint) (x : Vec) : Option ℕ :=
  match cs with
  | [] => none
  | c :: rest => if c.test x then some 0 else (pickBranch rest x).map (fun i => i + 1)

/-- All constraints of a set hold on a vector, the test of trepan.py
line 429. -/
def allSat (cs : List Constraint) (x : Vec) : Bool :=
  cs.all (fun c => c.test x)

/-- The attempt loop of draw_instance, trepan.py lines 427 to 433: gen
is the stream of successive generator outputs, t the index of the next
attempt, fuel the remaining attempts.  The result carries the returned
instance (none models the raised RuntimeError) together with the total
number of generator calls made. -/
def drawLoop (cs : List Constraint) (gen : ℕ → Vec) : ℕ → ℕ → Option Vec × ℕ
  | t, 0 => (none, t)
  | t, fuel + 1 =>
    if allSat cs (gen t) then (some (gen t), t + 1) else drawLoop cs gen (t + 1) fuel

/-- The draw_instance method, trepan.py lines 425 to 433: up to
maxAttempts generate-and-test rounds. -/
def drawInstance (cs : List Constraint) (gen : ℕ → Vec) (maxAttempts : ℕ) : Option Vec × ℕ :=
  drawLoop cs gen 0 maxAttempts

/-- TrepanNode equality, trepan.py lines 59 to 63, as a function of the
two score fields (a score starts as python None, here the none case):
when either score is unset the method returns False, otherwise it
compares the scores.  The Option Bool result leaves room for a raised
error (none), which this method never produces. -/
def nodeScoreEq (a b : Option ℚ) : Option Bool :=
  match a, b with
  | some x, some y => some (decide (x = y))
  | _, _ => some false

/-- TrepanNode less-than, trepan.py lines 65 to 69: when either score
is unset the method raises ValueError (the none result), otherwise it
compares the scores. -/
def nodeScoreLt (a b : Option ℚ) : Option Bool :=
  match a, b with
  | some x, some y => some (decide (x < y))
  | _, _ => none

/-- Column of the data matrix at feature i restricted to an index set,
the slicing self.data[idx, i] of trepan.py lines 190 to 212. -/
def colAt (data : List Vec) (i : ℕ) (idx : List ℕ) : List ℚ :=
  idx.map (fun r => (data.getD r []).getD i 0)

/-- Insert a value into a sorted duplicate-free list of rationals. -/
def insertSorted (x : ℚ) : List ℚ → List ℚ
  | [] => [x]
  | y :: ys =>
    if x < y then x :: y :: ys
    else if x = y then y :: ys
    else y :: insertSorted x ys

/-- The np.union1d of trepan.py line 196: sorted duplicate-free union
of the values of two columns. -/
def sortedUnion (a b : List ℚ) : List ℚ :=
  (a ++ b).foldl (fun acc x => insertSorted x acc) []

/-- Frequency vector of a column over a value list, the freq1 and freq2
constructions of trepan.py lines 202 and 203 (zero for absent values). -/
def freqOf (values : List ℚ) (col : List ℚ) : List ℕ :=
  values.map (fun v => col.count v)

/-- One feature of the loop of same_distribution, trepan.py lines 183
to 215: a discrete feature runs the chi-square test unless the union of
observed values has at most one element, a continuous feature runs the
Kolmogorov-Smirnov test; each test performed bumps the test counter and
lowers the minimal p-value when beaten.  pChi and pKS abstract the
scipy chisquare and ks_2samp p-values. -/
def distStep (spec : List FeatureSpec) (data : List Vec)
    (pChi : List ℕ → List ℕ → ℚ) (pKS : List ℚ → List ℚ → ℚ)
    (idx1 idx2 : List ℕ) (st : ℕ × ℚ) (i : ℕ) : ℕ × ℚ :=
  match spec.getD i FeatureSpec.continuous with
  | FeatureSpec.discrete =>
    let values := sortedUnion (colAt data i idx1) (colAt data i idx2)
    if 1 < values.length then
      let p := pChi (freqOf values (colAt data i idx1)) (freqOf values (colAt data i idx2))
      (st.1 + 1, if p < st.2 then p else st.2)
    else st
  | FeatureSpec.continuous =>
    let p := pKS (colAt data i idx1) (colAt data i idx2)
    (st.1 + 1, if p < st.2 then p else st.2)

/-- The per-feature loop of same_distribution, trepan.py lines 181 to
215, folding the pair (number of tests performed, minimal p-value) over
the features. -/
def distStats (spec : List FeatureSpec) (data : List Vec)
    (pChi : List ℕ → List ℕ → ℚ) (pKS : List ℚ → List ℚ → ℚ)
    (idx1 idx2 : List ℕ) : ℕ × ℚ :=
  (List.range spec.length).foldl (distStep spec data pChi pKS idx1 idx2) (0, 1)

/-- The same_distribution method, trepan.py lines 176 to 217.  The
method ends with min_p less-than alpha divided by n_tests; when
n_tests is zero that division raises ZeroDivisionError, modelled by
the none result.  The loop iterates over the data columns, equal in
count to the feature spec length by the fit preconditions. -/
def sameDistribution (spec : List FeatureSpec) (data : List Vec)
    (pChi : List ℕ → List ℕ → ℚ) (pKS : List ℚ → List ℚ → ℚ)
    (alpha : ℚ) (idx1 idx2 : List ℕ) : Option Bool :=
  let st := distStats spec data pChi pKS idx1 idx2
  if st.1 = 0 then none else some (decide (st.2 < alpha / (st.1 : ℚ)))

/-- A feature yields a valid statistical test for two index sets: any
continuous feature does, a discrete feature does exactly when more than
one distinct value is observed in the union of the two columns. -/
def testedAt (spec : List FeatureSpec) (data : List Vec)
    (idx1 idx2 : List ℕ) (i : ℕ) : Bool :=
  match spec.getD i FeatureSpec.continuous with
  | FeatureSpec.continuous => true
  | FeatureSpec.discrete =>
    decide (1 < (sortedUnion (colAt data i idx1) (colAt data i idx2)).length)

/-- Modelled from the spec: fidelity of a node as the agreement rate of
its prediction against the labels of the instances at that node, the
real training labels routed to it followed by its synthetic labels.
This is the spec-side definition the fidelity computation of trepan.py
line 385 is compared against. -/
def specNodeFidelity (targets : List ℕ) (node : Node) : ℚ :=
  agreeRate (selectIdx targets node.trainingIdx ++ node.genTargets) node.prediction

/-- Threshold constraint feature zero at one half, the LessOrEqual side. -/
def c1le : Constraint := Constraint.prim (PrimC.lec 0 (mkRat 1 2))

/-- Threshold constraint feature zero at one half, the GreaterThan side. -/
def c1gt : Constraint := Constraint.prim (PrimC.gtc 0 (mkRat 1 2))

/-- A two-way threshold split, the shape produced by fayyad_thresholds. -/
def c1pair : List Constraint := [c1le, c1gt]

/-- Fit call with a node budget of two, a minimum sample of zero (no
synthetic generation anywhere), one continuous feature, two training
rows straddling the threshold, and one threshold candidate; the split
construction is the construct_split of the source over that pool. -/
noncomputable def c1env : FitEnv :=
  { data := [[0], [1]],
    targets := [0, 1],
    splitter := fun d t => constructSplit [c1pair] d t,
    sample := fun _ _ _ => ([], []),
    sameDist := fun _ _ => true,
    minSample := 0,
    maxTreeSize := 2 }

/-- The same fit call with the split construction result precomputed,
used to exercise the size bound on an executable instance. -/
def c1wenv : FitEnv :=
  { data := [[0], [1]],
    targets := [0, 1],
    splitter := fun _ _ => [c1le, c1gt],
    sample := fun _ _ _ => ([], []),
    sameDist := fun _ _ => true,
    minSample := 0,
    maxTreeSize := 2 }

/-- Fit call on four rows of one continuous feature with labels zero,
zero, zero, one, no synthetic generation. -/
def c2env : FitEnv :=
  { data := [[0], [1], [2], [3]],
    targets := [0, 0, 0, 1],
    splitter := fun _ _ => [],
    sample := fun _ _ _ => ([], []),
    sameDist := fun _ _ => true,
    minSample := 0,
    maxTreeSize := 10 }

/-- Threshold constraint feature zero at three halves: rows zero and
one pass, rows two and three do not. -/
def c2c : Constraint := Constraint.prim (PrimC.lec 0 (mkRat 3 2))

/-- Data and targets for the split-score comparison: four rows of one
feature, the threshold branch at one half holds rows with labels zero,
zero, one and the complementary branch one row with label one. -/
def c3data : List Vec := [[0], [0], [0], [1]]

/-- Targets for the split-score comparison. -/
def c3targets : List ℕ := [0, 0, 1, 1]

/-- Fit call with one training row whose label equals the root
prediction: the root is pure. -/
def c6env : FitEnv :=
  { data := [[0]],
    targets := [0],
    splitter := fun _ _ => [],
    sample := fun _ _ _ => ([], []),
    sameDist := fun _ _ => true,
    minSample := 0,
    maxTreeSize := 10 }

/-- Fit call with three rows where the GreaterThan branch of the
threshold split gathers mixed labels, so that expansion pushes it. -/
def c6wenv : FitEnv :=
  { data := [[0], [1], [2]],
    targets := [0, 1, 0],
    splitter := fun _ _ => [c1le, c1gt],
    sample := fun _ _ _ => ([], []),
    sameDist := fun _ _ => true,
    minSample := 0,
    maxTreeSize := 10 }

/-- Fit call with one training row, used to instantiate the coverage
step on a concrete node. -/
def c7wenv : FitEnv :=
  { data := [[0], [2]],
    targets := [0, 1],
    splitter := fun _ _ => [],
    sample := fun _ _ _ => ([], []),
    sameDist := fun _ _ => true,
    minSample := 0,
    maxTreeSize := 10 }

/-- An m-of-n constraint demanding one of zero primitive tests: it
tests false on every vector. -/
def c8falseC : Constraint := Constraint.mofn 1 []

/-- A constraint every vector with positive first feature satisfies,
used twice to exhibit a node whose two children both match a vector. -/
def c4c : Constraint := Constraint.prim (PrimC.gtc 0 0)

/-- Fit call used to exercise the empty-split step of the loop. -/
noncomputable def c10wenv : FitEnv :=
  { data := [[0]],
    targets := [0],
    splitter := fun d t => constructSplit [] d t,
    sample := fun _ _ _ => ([], []),
    sameDist := fun _ _ => true,
    minSample := 0,
    maxTreeSize := 10 }

/-- A scored frontier node over the single training row. -/
def c10wnode : Node :=
  { score := 0, localConstraint := none, constraints := [], trainingIdx := [0],
    generatorIdx := [0], genData := [], genTargets := [], prediction := 0,
    fidelity := 1, coverage := 1, depth := 0 }

/-- Exhaustion case of the attempt loop: when every attempt in the fuel
window fails the constraints, the loop returns the error outcome after
consuming exactly the remaining fuel. -/
theorem drawLoop_exhaust (cs : List Constraint) (gen : ℕ → Vec) :
    ∀ fuel t, (∀ j, j < fuel → allSat cs (gen (t + j)) = false) →
      drawLoop cs gen t fuel = (none, t + fuel) := by
  intro fuel
  induction fuel with
  | zero => intro t _; rfl
  | succ n ih =>
    intro t h
    have h0 : allSat cs (gen t) = false := by simpa using h 0 (Nat.succ_pos n)
    have hrec := ih (t + 1) (fun j hj => by
      have := h (j + 1) (Nat.succ_lt_succ hj)
      simpa [Nat.add_assoc, Nat.add_comm 1 j] using this)
    simp only [drawLoop, h0, Bool.false_eq_true, if_false, hrec]
    exact congrArg _ (by omega)

/-- Success case of the attempt loop: the first satisfying attempt in
the fuel window is returned, after exactly that many generator calls. -/
theorem drawLoop_hit (cs : List Constraint) (gen : ℕ → Vec) :
    ∀ fuel k t, k < fuel → allSat cs (gen (t + k)) = true →
      (∀ j, j < k → allSat cs (gen (t + j)) = false) →
      drawLoop cs gen t fuel = (some (gen (t + k)), t + k + 1) := by
  intro fuel
  induction fuel with
  | zero => intro k t hk; omega
  | succ n ih =>
    intro k t hk hs hf
    cases k with
    | zero =>
      simp only [Nat.add_zero] at hs
      simp [drawLoop, hs]
    | succ j =>
      have h0 : allSat cs (gen t) = false := by simpa using hf 0 (Nat.succ_pos j)
      have hrec := ih j (t + 1) (by omega)
        (by have := hs; rw [show t + 1 + j = t + (j + 1) by omega]; exact this)
        (fun j2 hj2 => by
          have := hf (j2 + 1) (Nat.succ_lt_succ hj2)
          simpa [show t + 1 + j2 = t + (j2 + 1) by omega] using this)
      simp only [drawLoop, h0, Bool.false_eq_true, if_false, hrec]
      rw [show t + 1 + j = t + (j + 1) by omega]

/-- The attempt loop makes at most fuel further generator calls. -/
theorem drawLoop_att (cs : List Constraint) (gen : ℕ → Vec) :
    ∀ fuel t, (drawLoop cs gen t fuel).2 ≤ t + fuel := by
  intro fuel
  induction fuel with
  | zero => intro t; simp [drawLoop]
  | succ n ih =>
    intro t
    by_cases h : allSat cs (gen t) = true
    · simp only [drawLoop, h, if_true]
      omega
    · have h0 : allSat cs (gen t) = false := by simpa using h
      have := ih (t + 1)
      simp only [drawLoop, h0, Bool.false_eq_true, if_false]
      omega

/-- C8: draw_instance makes at most maxAttempts generator calls and
returns the first generated instance satisfying all constraints; when
all of the first maxAttempts generated instances violate some
constraint it fails after exactly maxAttempts attempts. -/
theorem c8_draw_instance (cs : List Constraint) (gen : ℕ → Vec) (m : ℕ) :
    (drawInstance cs gen m).2 ≤ m ∧
    (∀ k, k < m → allSat cs (gen k) = true →
      (∀ j, j < k → allSat cs (gen j) = false) →
      drawInstance cs gen m = (some (gen k), k + 1)) ∧
    ((∀ k, k < m → allSat cs (gen k) = false) →
      drawInstance cs gen m = (none, m)) := by
  refine ⟨?_, ?_, ?_⟩
  · have := drawLoop_att cs gen m 0
    simpa [drawInstance] using this
  · intro k hk hs hf
    have := drawLoop_hit cs gen m k 0 hk (by simpa using hs)
      (fun j hj => by simpa using hf j hj)
    simpa [drawInstance] using this
  · intro hall
    have := drawLoop_exhaust cs gen m 0 (fun j hj => by simpa using hall j hj)
    simpa [drawInstance] using this

/-- C8 witness: with the always-false constraint set and five allowed
attempts, draw_instance fails after exactly five generator calls. -/
theorem c8_draw_instance_witness :
    drawInstance [c8falseC] (fun _ => [0]) 5 = (none, 5) :=
  (c8_draw_instance [c8falseC] (fun _ => [0]) 5).2.2 (by decide)

/-- C2: at a concrete fit step, the fidelity the source assigns to a
child (trepan.py line 385) is the agreement rate of its prediction over
the FULL training target vector joined with the child synthetic labels,
which differs from the agreement rate over the labels of the instances
at the child only; on this input the source yields three quarters while
the per-node rate is one. -/
theorem c2_fidelity_bug :
    (mkChild c2env (rootNode c2env) c2c).fidelity = 3 / 4 ∧
    specNodeFidelity c2env.targets (mkChild c2env (rootNode c2env) c2c) = 1 ∧
    (mkChild c2env (rootNode c2env) c2c).fidelity ≠
      specNodeFidelity c2env.targets (mkChild c2env (rootNode c2env) c2c) := by
  have hfid : (mkChild c2env (rootNode c2env) c2c).fidelity = agreeRate [0, 0, 0, 1] 0 := rfl
  have hspec : specNodeFidelity c2env.targets (mkChild c2env (rootNode c2env) c2c)
      = agreeRate [0, 0] 0 := rfl
  have hcount1 : List.countP (fun y => decide (y = (0 : ℕ))) [0, 0, 0, 1] = 3 := by decide
  have hcount2 : List.countP (fun y => decide (y = (0 : ℕ))) [0, 0] = 2 := by decide
  have h1 : agreeRate [0, 0, 0, 1] 0 = 3 / 4 := by
    unfold agreeRate
    rw [hcount1]
    norm_num
  have h2 : agreeRate [0, 0] 0 = 1 := by
    unfold agreeRate
    rw [hcount2]
    norm_num
  refine ⟨by rw [hfid, h1], by rw [hspec, h2], by rw [hfid, h1, hspec, h2]; norm_num⟩

/-- C4 counterexample: a node whose two children both satisfy the data
vector routes it silently to the first child instead of failing; the
match count two witnesses the degenerate case the claim says must
raise. -/
theorem c4_counterexample :
    pickBranch [c4c, c4c] [1] = some 0 ∧
    ([c4c, c4c].countP (fun c => c.test [1])) = 2 := by
  exact ⟨by decide, by decide⟩

/-- C4 amended: pick_branch returns the index of the FIRST child whose
constraint tests true, and fails exactly when no child constraint
tests true; multiple matches are not detected. -/
theorem c4_first_match (cs : List Constraint) (x : Vec) :
    (pickBranch cs x = none ↔ ∀ c ∈ cs, c.test x = false) ∧
    (∀ i, pickBranch cs x = some i →
      (cs.getD i (Constraint.mofn 0 [])).test x = true ∧
      ∀ j, j < i → (cs.getD j (Constraint.mofn 0 [])).test x = false) := by
  induction cs with
  | nil =>
    refine ⟨by simp [pickBranch], ?_⟩
    intro i h
    simp [pickBranch] at h
  | cons c rest ih =>
    by_cases hc : c.test x = true
    · refine ⟨?_, ?_⟩
      · simp [pickBranch, hc]
      · intro i h
        simp only [pickBranch, hc, if_true] at h
        have hi : i = 0 := by
          cases h; rfl
        subst hi
        refine ⟨by simpa [List.getD] using hc, ?_⟩
        intro j hj
        omega
    · have hcf : c.test x = false := by simpa using hc
      refine ⟨?_, ?_⟩
      · simp only [pickBranch, hcf, Bool.false_eq_true, if_false]
        constructor
        · intro h
          intro d hd
          rcases List.mem_cons.mp hd with h1 | h2
          · subst h1; exact hcf
          · exact (ih.1.mp (by simpa using h)) d h2
        · intro h
          have : pickBranch rest x = none :=
            ih.1.mpr (fun d hd => h d (List.mem_cons_of_mem _ hd))
          simp [this]
      · intro i h
        simp only [pickBranch, hcf, Bool.false_eq_true, if_false] at h
        rcases Option.map_eq_some'.mp h with ⟨i0, hi0, hieq⟩
        subst hieq
        have hrec := ih.2 i0 hi0
        refine ⟨by simpa [List.getD] using hrec.1, ?_⟩
        intro j hj
        cases j with
        | zero => simpa [List.getD] using hcf
        | succ j2 =>
          have := hrec.2 j2 (by omega)
          simpa [List.getD] using this

/-- C4 witness: on a vector matching no child, routing fails with the
error outcome, obtained through the first-match characterization. -/
theorem c4_first_match_witness :
    pickBranch [Constraint.prim (PrimC.gtc 0 5)] [0] = none :=
  (c4_first_match [Constraint.prim (PrimC.gtc 0 5)] [0]).1.mpr (by decide)

/-- C9 counterexample: comparing two nodes for equality when either
score is unset returns False instead of raising an error, contrary to
the claim that both comparison operations fail there. -/
theorem c9_counterexample :
    nodeScoreEq none none = some false ∧
    nodeScoreEq none (some 0) = some false := by
  exact ⟨rfl, rfl⟩

/-- C9 amended: the less-than comparison raises when either score is
unset, while the equality comparison returns False there; with both
scores set, both comparisons compare the scores. -/
theorem c9_comparison_behavior (a b : Option ℚ) :
    (a = none ∨ b = none →
      nodeScoreLt a b = none ∧ nodeScoreEq a b = some false) ∧
    (∀ x y, a = some x → b = some y →
      nodeScoreLt a b = some (decide (x < y)) ∧
      nodeScoreEq a b = some (decide (x = y))) := by
  cases a with
  | none =>
    cases b with
    | none => exact ⟨fun _ => ⟨rfl, rfl⟩, fun x y hx hy => by cases hx⟩
    | some y0 => exact ⟨fun _ => ⟨rfl, rfl⟩, fun x y hx hy => by cases hx⟩
  | some x0 =>
    cases b with
    | none => exact ⟨fun _ => ⟨rfl, rfl⟩, fun x y hx hy => by cases hy⟩
    | some y0 =>
      refine ⟨fun h => ?_, fun x y hx hy => ?_⟩
      · rcases h with h | h <;> cases h
      · cases hx
        cases hy
        exact ⟨rfl, rfl⟩

/-- C9 witness: the less-than comparison with an unset score raises
while the equality comparison returns False, at a concrete pair. -/
theorem c9_comparison_behavior_witness :
    nodeScoreLt none (some 1) = none ∧ nodeScoreEq none (some 1) = some false :=
  (c9_comparison_behavior none (some 1)).1 (Or.inl rfl)

/-- C6 counterexample: a fit call whose root node is pure (its single
training label equals its prediction) still places the root on the
expansion queue, so a pure node created during fit is pushed. -/
theorem c6_counterexample :
    (initState c6env).heap = [rootNode c6env] ∧
    (selectIdx c6env.targets (rootNode c6env).trainingIdx).all
      (fun y => decide (y = (rootNode c6env).prediction)) = true := by
  exact ⟨rfl, by decide⟩

/-- C6 amended: every node the expansion step adds to the frontier is a
fresh child (one level deeper than the expanded node) whose real
training labels are not all equal to its prediction; pure children are
never enqueued, while the root enters the queue without this check. -/
theorem c6_children_push_guard (env : FitEnv) (node : Node) (st : FitState) (nd : Node) :
    nd ∈ (expandNode env node st).heap →
    nd ∈ st.heap ∨
      (nd.depth = node.depth + 1 ∧
        ¬ ((selectIdx env.targets nd.trainingIdx).all
            (fun y => decide (y = nd.prediction)) = true)) := by
  unfold expandNode
  generalize (env.splitter (nodeData env node) (nodeTargets env node)) = l
  induction l generalizing st with
  | nil =>
    intro h
    exact Or.inl h
  | cons c rest ih =>
    intro h
    simp only [List.foldl_cons] at h
    rcases ih _ h with hmem | hprop
    · by_cases hg : (selectIdx env.targets (mkChild env node c).trainingIdx).all
          (fun y => decide (y = (mkChild env node c).prediction)) = true
      · left
        simpa [hg] using hmem
      · have hm2 : nd ∈ st.heap ++ [mkChild env node c] := by
          simpa [hg] using hmem
        rcases List.mem_append.mp hm2 with h1 | h2
        · exact Or.inl h1
        · have heq : nd = mkChild env node c := by simpa using h2
          subst heq
          exact Or.inr ⟨rfl, hg⟩
    · exact Or.inr hprop

/-- C6 amended witness: in a concrete expansion the impure child of the
GreaterThan branch appears on the frontier and satisfies the guard
characterization. -/
theorem c6_children_push_guard_witness :
    mkChild c6wenv (rootNode c6wenv) c1gt ∈ (⟨1, ([] : List Node)⟩ : FitState).heap ∨
      ((mkChild c6wenv (rootNode c6wenv) c1gt).depth = (rootNode c6wenv).depth + 1 ∧
        ¬ ((selectIdx c6wenv.targets (mkChild c6wenv (rootNode c6wenv) c1gt).trainingIdx).all
            (fun y => decide (y = (mkChild c6wenv (rootNode c6wenv) c1gt).prediction)) = true)) :=
  c6_children_push_guard c6wenv (rootNode c6wenv) ⟨1, []⟩
    (mkChild c6wenv (rootNode c6wenv) c1gt)
    (by
      have h : (expandNode c6wenv (rootNode c6wenv) ⟨1, []⟩).heap
          = [mkChild c6wenv (rootNode c6wenv) c1gt] := rfl
      rw [h]
      exact List.mem_singleton_self _)

/-- C7: the root coverage is one, and the coverage the child-creation
step assigns, the fraction of accepted real and synthetic parent
instances times the parent coverage, never exceeds the parent coverage
and stays nonnegative, provided the parent coverage is nonnegative and
the parent holds at least one real or synthetic instance. -/
theorem c7_coverage_monotone (env : FitEnv) (node : Node) (c : Constraint)
    (h0 : 0 ≤ node.coverage)
    (hd : 0 < node.trainingIdx.length + node.genData.length) :
    (rootNode env).coverage = 1 ∧
    (mkChild env node c).coverage ≤ node.coverage ∧
    0 ≤ (mkChild env node c).coverage := by
  have hcov : (mkChild env node c).coverage =
      (((node.trainingIdx.filter (fun i => c.test (env.data.getD i []))).length
          + node.genData.countP (fun r => c.test r) : ℕ) : ℚ)
        / ((node.trainingIdx.length + node.genData.length : ℕ) : ℚ) * node.coverage := rfl
  have hnum : (node.trainingIdx.filter (fun i => c.test (env.data.getD i []))).length
      + node.genData.countP (fun r => c.test r)
      ≤ node.trainingIdx.length + node.genData.length :=
    Nat.add_le_add (List.length_filter_le _ _) (List.countP_le_length _)
  have hdenQ : (0 : ℚ) < ((node.trainingIdx.length + node.genData.length : ℕ) : ℚ) := by
    exact_mod_cast hd
  have hfrac1 : (((node.trainingIdx.filter (fun i => c.test (env.data.getD i []))).length
      + node.genData.countP (fun r => c.test r) : ℕ) : ℚ)
        / ((node.trainingIdx.length + node.genData.length : ℕ) : ℚ) ≤ 1 := by
    rw [div_le_one hdenQ]
    exact_mod_cast hnum
  have hfrac0 : (0 : ℚ) ≤ (((node.trainingIdx.filter (fun i => c.test (env.data.getD i []))).length
      + node.genData.countP (fun r => c.test r) : ℕ) : ℚ)
        / ((node.trainingIdx.length + node.genData.length : ℕ) : ℚ) :=
    div_nonneg (by positivity) (le_of_lt hdenQ)
  refine ⟨rfl, ?_, ?_⟩
  · rw [hcov]
    exact mul_le_of_le_one_left h0 hfrac1
  · rw [hcov]
    exact mul_nonneg hfrac0 h0

/-- C7 witness: at a concrete parent with coverage one and two training
rows, the child coverage is at most the parent coverage and
nonnegative. -/
theorem c7_coverage_monotone_witness :
    (rootNode c7wenv).coverage = 1 ∧
    (mkChild c7wenv (rootNode c7wenv) c1le).coverage ≤ (rootNode c7wenv).coverage ∧
    0 ≤ (mkChild c7wenv (rootNode c7wenv) c1le).coverage :=
  c7_coverage_monotone c7wenv (rootNode c7wenv) c1le
    (by rw [show (rootNode c7wenv).coverage = (1 : ℚ) from rfl]; exact zero_le_one)
    (by decide)

/-- The test counter of the distribution-test fold advances by one
exactly on the features that yield a valid test. -/
theorem distStep_fst (spec : List FeatureSpec) (data : List Vec)
    (pChi : List ℕ → List ℕ → ℚ) (pKS : List ℚ → List ℚ → ℚ)
    (idx1 idx2 : List ℕ) (st : ℕ × ℚ) (i : ℕ) :
    (distStep spec data pChi pKS idx1 idx2 st i).1
      = st.1 + (if testedAt spec data idx1 idx2 i then 1 else 0) := by
  unfold distStep testedAt
  cases h : spec.getD i FeatureSpec.continuous with
  | continuous => simp
  | discrete =>
    by_cases hk : 1 < (sortedUnion (colAt data i idx1) (colAt data i idx2)).length
    · simp [hk]
    · simp [hk]

/-- The number of tests same_distribution performs equals the number of
features yielding a valid test. -/
theorem distStats_fst (spec : List FeatureSpec) (data : List Vec)
    (pChi : List ℕ → List ℕ → ℚ) (pKS : List ℚ → List ℚ → ℚ)
    (idx1 idx2 : List ℕ) :
    (distStats spec data pChi pKS idx1 idx2).1
      = (List.range spec.length).countP (testedAt spec data idx1 idx2) := by
  unfold distStats
  have h : ∀ (l : List ℕ) (st : ℕ × ℚ),
      (l.foldl (distStep spec data pChi pKS idx1 idx2) st).1
        = st.1 + l.countP (testedAt spec data idx1 idx2) := by
    intro l
    induction l with
    | nil => intro st; simp
    | cons i rest ih =>
      intro st
      rw [List.foldl_cons, ih, List.countP_cons, distStep_fst]
      by_cases ht : testedAt spec data idx1 idx2 i = true
      · simp [ht]
        omega
      · have ht2 : testedAt spec data idx1 idx2 i = false := by simpa using ht
        simp [ht2]
  have h2 := h (List.range spec.length) (0, 1)
  simpa using h2

/-- C5 counterexample: with one discrete feature showing the single
value five in both index sets, no feature yields a valid test and
same_distribution reaches the division by a zero test count, raising
ZeroDivisionError instead of declaring the distributions the same. -/
theorem c5_counterexample :
    sameDistribution [FeatureSpec.discrete] [[5], [5]]
      (fun _ _ => 1) (fun _ _ => 1) (mkRat 1 20) [0] [1] = none := by
  decide

/-- C5 amended: same_distribution fails (the unguarded division by the
test count raises ZeroDivisionError) exactly when no feature yields a
valid test, that is when every feature is discrete with at most one
distinct observed value over the union of the two index sets; otherwise
it returns whether the minimal p-value is below alpha divided by the
test count. -/
theorem c5_no_valid_test_iff (spec : List FeatureSpec) (data : List Vec)
    (pChi : List ℕ → List ℕ → ℚ) (pKS : List ℚ → List ℚ → ℚ)
    (alpha : ℚ) (idx1 idx2 : List ℕ) :
    sameDistribution spec data pChi pKS alpha idx1 idx2 = none ↔
      ∀ i, i < spec.length → testedAt spec data idx1 idx2 i = false := by
  have hc := distStats_fst spec data pChi pKS idx1 idx2
  by_cases h : (distStats spec data pChi pKS idx1 idx2).1 = 0
  · simp only [sameDistribution, h, if_pos]
    constructor
    · intro _ i hi
      rw [hc] at h
      have hall := List.countP_eq_zero.mp h
      have h2 := hall i (List.mem_range.mpr hi)
      simpa using h2
    · intro _
      trivial
  · simp only [sameDistribution, h, if_neg, if_false]
    constructor
    · intro hcontr
      exact absurd hcontr (by simp)
    · intro hall
      exfalso
      apply h
      rw [hc]
      refine List.countP_eq_zero.mpr ?_
      intro a ha
      rw [hall a (List.mem_range.mp ha)]
      simp

/-- C5 amended witness: with two degenerate discrete features the
characterization yields the failing outcome at a concrete input. -/
theorem c5_no_valid_test_iff_witness :
    sameDistribution [FeatureSpec.discrete, FeatureSpec.discrete] [[1, 2], [1, 2]]
      (fun _ _ => 1) (fun _ _ => 1) (mkRat 1 20) [0] [1] = none :=
  (c5_no_valid_test_iff [FeatureSpec.discrete, FeatureSpec.discrete] [[1, 2], [1, 2]]
    (fun _ _ => 1) (fun _ _ => 1) (mkRat 1 20) [0] [1]).mpr (by decide)

/-- When no candidate scores strictly above zero, the best-candidate
scan of construct_split keeps the initial empty split. -/
theorem constructSplit_eq_nil (cands : List (List Constraint))
    (data : List Vec) (targets : List ℕ)
    (h : ∀ s ∈ cands, splitScore s data targets ≤ 0) :
    constructSplit cands data targets = [] := by
  unfold constructSplit
  have hs : cands.foldl (splitFold data targets) ((0 : ℝ), ([] : List Constraint))
      = ((0 : ℝ), ([] : List Constraint)) := by
    induction cands with
    | nil => rfl
    | cons s rest ih =>
      rw [List.foldl_cons]
      have hstep : splitFold data targets ((0 : ℝ), ([] : List Constraint)) s
          = ((0 : ℝ), ([] : List Constraint)) := by
        unfold splitFold
        rw [if_neg]
        exact not_lt.mpr (h s (List.mem_cons_self s rest))
      rw [hstep]
      exact ih (fun s2 hs2 => h s2 (List.mem_cons_of_mem _ hs2))
  rw [hs]

/-- C10: when every candidate split for the popped node scores at most
zero, construct_split with m-of-n refinement disabled returns the empty
split, and the loop iteration simply removes the node from the
frontier: no child is created, no error is raised, and the node counter
is unchanged. -/
theorem c10_empty_split (env : FitEnv)
    (candFn : List Vec → List ℕ → List (List Constraint))
    (st : FitState) (node : Node) (rest : List Node) (fuel : ℕ)
    (hsp : env.splitter = fun d t => constructSplit (candFn d t) d t)
    (hpop : popMin st.heap = some (node, rest))
    (hsz : st.size < env.maxTreeSize)
    (hscore : ∀ s ∈ candFn (nodeData env node) (nodeTargets env node),
      splitScore s (nodeData env node) (nodeTargets env node) ≤ 0) :
    constructSplit (candFn (nodeData env node) (nodeTargets env node))
        (nodeData env node) (nodeTargets env node) = [] ∧
    fitLoop env (fuel + 1) st = fitLoop env fuel ⟨st.size, rest⟩ := by
  have hnil := constructSplit_eq_nil _ _ _ hscore
  refine ⟨hnil, ?_⟩
  have hexp : expandNode env node ⟨st.size, rest⟩ = ⟨st.size, rest⟩ := by
    unfold expandNode
    rw [hsp]
    simp only []
    rw [hnil]
    rfl
  simp only [fitLoop, hsz, if_true, hpop]
  rw [hexp]

/-- C10 witness: a concrete loop step over a singleton frontier with an
empty candidate pool removes the node and leaves the node counter at
one. -/
theorem c10_empty_split_witness :
    constructSplit [] (nodeData c10wenv c10wnode) (nodeTargets c10wenv c10wnode) = [] ∧
    fitLoop c10wenv 1 ⟨1, [c10wnode]⟩ = fitLoop c10wenv 0 ⟨1, []⟩ :=
  c10_empty_split c10wenv (fun _ _ => []) ⟨1, [c10wnode]⟩ c10wnode [] 0
    rfl (by decide) (by decide) (by simp)

/-- One expansion grows the node counter by exactly the number of
constraints of the constructed split. -/
theorem expandNode_size (env : FitEnv) (node : Node) (st : FitState) :
    (expandNode env node st).size
      = st.size + (env.splitter (nodeData env node) (nodeTargets env node)).length := by
  unfold expandNode
  generalize (env.splitter (nodeData env node) (nodeTargets env node)) = l
  induction l generalizing st with
  | nil => simp
  | cons c rest ih =>
    rw [List.foldl_cons, List.length_cons, ih]
    simp only []
    omega

/-- Budget bound of the induction loop: an expansion begins only while
the node counter is strictly below the budget, and adds at most the
split arity; hence every state the loop reaches keeps the counter at or
below the larger of the starting counter and the budget minus one plus
the arity bound. -/
theorem fitLoop_size_le (env : FitEnv) (A : ℕ)
    (hA : ∀ d t, (env.splitter d t).length ≤ A) :
    ∀ (fuel : ℕ) (st : FitState),
      (fitLoop env fuel st).size ≤ max st.size (env.maxTreeSize - 1 + A) := by
  intro fuel
  induction fuel with
  | zero => intro st; exact le_max_left _ _
  | succ n ih =>
    intro st
    simp only [fitLoop]
    by_cases h : st.size < env.maxTreeSize
    · simp only [h, if_true]
      cases hp : popMin st.heap with
      | none => exact le_max_left _ _
      | some pr =>
        obtain ⟨node, rest⟩ := pr
        have hexp : (expandNode env node ⟨st.size, rest⟩).size ≤ env.maxTreeSize - 1 + A := by
          rw [expandNode_size]
          have h2 := hA (nodeData env node) (nodeTargets env node)
          simp only []
          omega
        have hrec := ih (expandNode env node ⟨st.size, rest⟩)
        have : (fitLoop env n (expandNode env node ⟨st.size, rest⟩)).size
            ≤ env.maxTreeSize - 1 + A :=
          le_trans hrec (max_le hexp le_rfl)
        exact le_trans this (le_max_right _ _)
    · simp only [h, if_false]
      exact le_max_left _ _

/-- C1 amended: fit rechecks the budget only between expansions, so the
final node count is bounded by the larger of one and the budget minus
one plus a bound on the split arity, and can exceed the configured
maximum itself by up to the final split arity minus one. -/
theorem c1_size_bound (env : FitEnv) (A : ℕ)
    (hA : ∀ d t, (env.splitter d t).length ≤ A) (fuel : ℕ) :
    (fit env fuel).size ≤ max 1 (env.maxTreeSize - 1 + A) := by
  have h := fitLoop_size_le env A hA fuel (initState env)
  simpa [fit, initState] using h

/-- C1 amended witness: the bound applied to the concrete binary-split
run with budget two and arity bound two. -/
theorem c1_size_bound_witness :
    (fit c1wenv 3).size ≤ max 1 (c1wenv.maxTreeSize - 1 + 2) :=
  c1_size_bound c1wenv 2 (fun _ _ => Nat.le_refl 2) 3

/-- The negated self-entropy term is positive strictly inside the unit
interval. -/
theorem negMulLog_pos_of (x : ℝ) (h0 : 0 < x) (h1 : x < 1) : 0 < Real.negMulLog x := by
  have hl : Real.log x < 0 := Real.log_neg h0 h1
  unfold Real.negMulLog
  nlinarith

/-- Label entropy of a single label is zero. -/
theorem entropy_single (v : ℕ) : entropy [v] = 0 := by
  norm_num [entropy, distincts]

/-- Label entropy of one label of each of two kinds. -/
theorem entropy_pair01 : entropy [0, 1] = Real.negMulLog (1/2) + Real.negMulLog (1/2) := by
  norm_num [entropy, distincts]

/-- Label entropy of two labels of one kind and one of another. -/
theorem entropy_twoone : entropy [0, 0, 1] = Real.negMulLog (2/3) + Real.negMulLog (1/3) := by
  norm_num [entropy, distincts]

/-- The threshold candidate on the two straddling rows has a strictly
positive score. -/
theorem c1_score_pos :
    (0 : ℝ) < splitScore c1pair ([[(0 : ℚ)], [1]] : List Vec) [0, 1] := by
  have hb1 : branchTargets c1le ([[(0 : ℚ)], [1]] : List Vec) [0, 1] = [0] := by decide
  have hb2 : branchTargets c1gt ([[(0 : ℚ)], [1]] : List Vec) [0, 1] = [1] := by decide
  have hp : 0 < Real.negMulLog (1/2 : ℝ) := negMulLog_pos_of _ (by norm_num) (by norm_num)
  unfold splitScore
  simp only [c1pair, List.map_cons, List.map_nil, List.sum_cons, List.sum_nil, hb1, hb2,
    entropy_single, entropy_pair01]
  linarith

/-- On the two straddling rows, construct_split over the single
threshold candidate selects that candidate. -/
theorem c1_construct :
    constructSplit [c1pair] ([[(0 : ℚ)], [1]] : List Vec) [0, 1] = c1pair := by
  unfold constructSplit
  rw [List.foldl_cons, List.foldl_nil]
  unfold splitFold
  have hpos : ((0 : ℝ), ([] : List Constraint)).1
      < splitScore c1pair ([[(0 : ℚ)], [1]] : List Vec) [0, 1] := c1_score_pos
  rw [if_pos hpos]

/-- C1 counterexample: the fit call with node budget two enters the
expansion with one node on the tree, appends both split children
without rechecking the budget, and returns a tree of three nodes,
exceeding the configured maximum.  The split is the construct_split of
the source over the single threshold candidate. -/
theorem c1_counterexample :
    (fit c1env 3).size = 3 ∧ c1env.maxTreeSize = 2 := by
  refine ⟨?_, rfl⟩
  have hsplit : c1env.splitter (nodeData c1env (rootNode c1env))
      (nodeTargets c1env (rootNode c1env)) = c1pair := by
    rw [show nodeData c1env (rootNode c1env) = ([[(0 : ℚ)], [1]] : List Vec) from rfl,
      show nodeTargets c1env (rootNode c1env) = [0, 1] from rfl]
    exact c1_construct
  have step1 : fit c1env 3 = fitLoop c1env 2 (expandNode c1env (rootNode c1env) ⟨1, []⟩) := rfl
  have step2 : expandNode c1env (rootNode c1env) ⟨1, []⟩ = ⟨3, []⟩ := by
    unfold expandNode
    rw [hsplit]
    rfl
  rw [step1, step2]
  rfl

/-- C3: on a concrete split of four labels, the split_score of the
source (parent entropy minus the plain sum of child entropies) is
strictly below the size-weighted information gain the claim describes,
so the two quantities are not equal; the unweighted sum overcounts the
majority branch entropy by its one-quarter complement weight. -/
theorem c3_split_score_unweighted :
    splitScore c1pair c3data c3targets < infoGain c1pair c3data c3targets := by
  have hb1 : branchTargets c1le c3data c3targets = [0, 0, 1] := by decide
  have hb2 : branchTargets c1gt c3data c3targets = [1] := by decide
  have hp1 : 0 < Real.negMulLog (2/3 : ℝ) := negMulLog_pos_of _ (by norm_num) (by norm_num)
  have hp2 : 0 < Real.negMulLog (1/3 : ℝ) := negMulLog_pos_of _ (by norm_num) (by norm_num)
  unfold splitScore infoGain
  simp only [c1pair, List.map_cons, List.map_nil, List.sum_cons, List.sum_nil, hb1, hb2,
    entropy_single, entropy_twoone]
  simp only [c3targets, List.length_cons, List.length_nil]
  push_cast
  nlinarith [hp1, hp2]

end TrepanModel
